import Mathlib

/-!
Verification of the chatty streaming-generation engine.

The definitions below are a shallow embedding of the Python source:
`chatty/main.py` (conversation state machine), `chatty/llm/openai.py`
(networked backend), `chatty/llm/ctransformers.py` (local-inference
bridge), and `chatty/config.py` (model configuration / backend cache).
-/

namespace Chatty

/-- One event of a generation's output stream (`chatty/models.py`, `Update`):
optional role label, optional content delta, optional terminal reason. -/
structure Update where
  role : Option String
  content : Option String
  finish_reason : Option String
deriving DecidableEq, Repr

/-- A conversation turn (`chatty/models.py`, `Message`): role, accumulated
content, optional token count.  Session identity is kept implicit; a session's
messages are a `List SMsg` in conversation order. -/
structure SMsg where
  role : String
  content : String
  tokens : Option Nat
deriving DecidableEq, Repr

instance : Inhabited SMsg := ⟨⟨"", "", none⟩⟩

/-- A message is pending (the in-flight assistant slot) when both its role and
its content are empty, matching the spec's pending-placeholder definition. -/
def isPending (m : SMsg) : Bool :=
  m.role == "" && m.content == ""

/-- Python truthiness of an `Option String` (`if update.role:` is false for
both `None` and the empty string). -/
def truthy : Option String → Bool
  | none => false
  | some s => s != ""

/-- Body of the consumption loop in `SessionWidget.send.generation_task`
(`main.py` lines 236-240): a truthy role overwrites the message role, a truthy
content delta is appended to the message content. -/
def applyUpdate (m : SMsg) (u : Update) : SMsg :=
  let m1 := if truthy u.role then SMsg.mk (u.role.getD "") m.content m.tokens else m
  if truthy u.content then SMsg.mk m1.role (m1.content ++ u.content.getD "") m1.tokens else m1

/-- Concatenation, in delivery order, of every truthy (non-empty) content
field of a list of updates. -/
def deltas (us : List Update) : String :=
  us.foldl (fun acc u => if truthy u.content then acc ++ u.content.getD "" else acc) ""

theorem strNilAppend (a : String) : "" ++ a = a := by
  cases a with
  | mk da => rfl

theorem strAppendNil (a : String) : a ++ "" = a := by
  cases a with
  | mk da =>
    show String.mk (da ++ []) = String.mk da
    rw [List.append_nil]

theorem strAppendAssoc (a b c : String) : a ++ b ++ c = a ++ (b ++ c) := by
  cases a with
  | mk da =>
    cases b with
    | mk db =>
      cases c with
      | mk dc =>
        show String.mk (da ++ db ++ dc) = String.mk (da ++ (db ++ dc))
        rw [List.append_assoc]

theorem deltas_aux (us : List Update) (acc : String) :
    us.foldl (fun acc u => if truthy u.content then acc ++ u.content.getD "" else acc) acc
      = acc ++ deltas us := by
  induction us generalizing acc with
  | nil => simp [deltas, strAppendNil]
  | cons u rest ih =>
    simp only [List.foldl_cons]
    rw [ih]
    conv_rhs => rw [deltas, List.foldl_cons, ih]
    by_cases h : truthy u.content
    · simp [h, strNilAppend, strAppendAssoc]
    · simp [h, strNilAppend]

theorem deltas_cons (u : Update) (rest : List Update) :
    deltas (u :: rest)
      = (if truthy u.content then u.content.getD "" else "") ++ deltas rest := by
  rw [deltas, List.foldl_cons, deltas_aux]
  by_cases h : truthy u.content
  · simp [h, strNilAppend]
  · simp [h, strNilAppend]

theorem applyUpdate_content (m : SMsg) (u : Update) :
    (applyUpdate m u).content
      = m.content ++ (if truthy u.content then u.content.getD "" else "") := by
  unfold applyUpdate
  by_cases hr : truthy u.role <;> by_cases hc : truthy u.content <;>
    simp [hr, hc, strAppendNil]

/-- Folding the consumption-loop body over any update sequence keeps the
starting content as a preserved left factor and appends exactly the truthy
deltas, in delivery order. -/
theorem applyUpdate_foldl_content (us : List Update) (m : SMsg) :
    (us.foldl applyUpdate m).content = m.content ++ deltas us := by
  induction us generalizing m with
  | nil => simp [deltas, strAppendNil]
  | cons u rest ih =>
    rw [List.foldl_cons, ih, applyUpdate_content, deltas_cons, strAppendAssoc]

/-- In-place mutation of the message object at index `i` (Python mutates the
list element; out-of-range indexing would raise, so the model is the identity
there and theorems carry the in-range hypothesis). -/
def modifyIdx (l : List α) (i : Nat) (f : α → α) : List α :=
  match l[i]? with
  | some a => l.set i (f a)
  | none => l

theorem length_modifyIdx (l : List α) (i : Nat) (f : α → α) :
    (modifyIdx l i f).length = l.length := by
  unfold modifyIdx
  cases l[i]? with
  | none => rfl
  | some a => exact List.length_set l i (f a)

theorem getElem?_modifyIdx_ne (l : List α) (i j : Nat) (f : α → α) (h : i ≠ j) :
    (modifyIdx l i f)[j]? = l[j]? := by
  unfold modifyIdx
  cases l[i]? with
  | none => rfl
  | some a => exact List.getElem?_set_ne h

theorem getElem?_modifyIdx_self (l : List α) (i : Nat) (f : α → α) :
    (modifyIdx l i f)[i]? = l[i]?.map f := by
  unfold modifyIdx
  cases hl : l[i]? with
  | none => simp [hl]
  | some a =>
    have hlt : i < l.length := (List.getElem?_eq_some_iff.mp hl).1
    rw [List.getElem?_set_self hlt]
    rfl

/-- Delete command on a session's message list (`main.py` lines 272-275,
`SessionWidget.on_action_message`): pop the paired reply at `index + 1` when it
exists, then pop the message at `index`. -/
def delete_message (msgs : List SMsg) (i : Nat) : List SMsg :=
  let m1 := if i + 1 < msgs.length then msgs.eraseIdx (i + 1) else msgs
  m1.eraseIdx i

theorem delete_message_eq (msgs : List SMsg) (i : Nat) (h : i < msgs.length) :
    delete_message msgs i = msgs.take i ++ msgs.drop (i + 2) := by
  induction msgs generalizing i with
  | nil => simp at h
  | cons a t ih =>
    cases i with
    | zero =>
      cases t with
      | nil => simp [delete_message]
      | cons b t2 => simp [delete_message, List.eraseIdx]
    | succ j =>
      have hj : j < t.length := by
        simpa [Nat.succ_lt_succ_iff] using h
      have ht := ih j hj
      simp only [delete_message] at ht ⊢
      by_cases hc : j + 1 < t.length
      · have hc2 : j + 1 + 1 < (a :: t).length := by
          simpa [Nat.succ_lt_succ_iff] using hc
        simp only [hc, if_true, hc2, if_true] at ht ⊢
        simpa [List.eraseIdx] using ht
      · have hc2 : ¬ j + 1 + 1 < (a :: t).length := by
          simpa [Nat.succ_lt_succ_iff] using hc
        simp only [hc, if_false, hc2, if_false] at ht ⊢
        simpa [List.eraseIdx] using ht

/-- Edit-mode submit, `main.py` lines 206-231: overwrite the content of the
message at the edited index, slice the history passed to the backend to
indices `0..i`, then reset the paired reply at `i + 1` to the pending
placeholder by clearing its role and content in place (its stale token count
is untouched at this point).  Returns `(history, session messages)`. -/
def submitEditPrepare (msgs : List SMsg) (i : Nat) (text : String) :
    List SMsg × List SMsg :=
  let m1 := modifyIdx msgs i (fun m => SMsg.mk m.role text m.tokens)
  let history := m1.take (i + 1)
  (history, modifyIdx m1 (i + 1) (fun m => SMsg.mk "" "" m.tokens))

/-- Consumption of one generation's update stream into the message at `pidx`
followed by completion (`generation_task`, `main.py` lines 235-250): apply
every update, then store the token count of the accumulated content. -/
def runGeneration (msgs : List SMsg) (pidx : Nat) (updates : List Update)
    (tokenCount : String → Nat) : List SMsg :=
  let m2 := updates.foldl (fun acc u => modifyIdx acc pidx (fun m => applyUpdate m u)) msgs
  modifyIdx m2 pidx (fun m => SMsg.mk m.role m.content (some (tokenCount m.content)))

/-- Whole edit-then-submit-then-generate pipeline on the session's messages. -/
def editSubmitGenerate (msgs : List SMsg) (i : Nat) (text : String)
    (updates : List Update) (tokenCount : String → Nat) : List SMsg :=
  runGeneration (submitEditPrepare msgs i text).2 (i + 1) updates tokenCount

theorem foldl_modifyIdx_ne (updates : List Update) (msgs : List SMsg)
    (p j : Nat) (h : p ≠ j) :
    (updates.foldl (fun acc u => modifyIdx acc p (fun m => applyUpdate m u)) msgs)[j]?
      = msgs[j]? := by
  induction updates generalizing msgs with
  | nil => rfl
  | cons u rest ih =>
    rw [List.foldl_cons, ih, getElem?_modifyIdx_ne _ _ _ _ h]

theorem foldl_modifyIdx_self (updates : List Update) (msgs : List SMsg) (p : Nat) :
    (updates.foldl (fun acc u => modifyIdx acc p (fun m => applyUpdate m u)) msgs)[p]?
      = msgs[p]?.map (fun m => updates.foldl applyUpdate m) := by
  induction updates generalizing msgs with
  | nil => simp
  | cons u rest ih =>
    rw [List.foldl_cons, ih, getElem?_modifyIdx_self]
    cases msgs[p]? with
    | none => rfl
    | some m => rfl

theorem foldl_modifyIdx_length (updates : List Update) (msgs : List SMsg) (p : Nat) :
    (updates.foldl (fun acc u => modifyIdx acc p (fun m => applyUpdate m u)) msgs).length
      = msgs.length := by
  induction updates generalizing msgs with
  | nil => rfl
  | cons u rest ih =>
    rw [List.foldl_cons, ih, length_modifyIdx]

theorem runGeneration_length (msgs : List SMsg) (pidx : Nat) (updates : List Update)
    (tc : String → Nat) : (runGeneration msgs pidx updates tc).length = msgs.length := by
  unfold runGeneration
  rw [length_modifyIdx, foldl_modifyIdx_length]

theorem runGeneration_ne (msgs : List SMsg) (pidx j : Nat) (updates : List Update)
    (tc : String → Nat) (h : pidx ≠ j) :
    (runGeneration msgs pidx updates tc)[j]? = msgs[j]? := by
  unfold runGeneration
  rw [getElem?_modifyIdx_ne _ _ _ _ h, foldl_modifyIdx_ne _ _ _ _ h]

theorem runGeneration_self (msgs : List SMsg) (pidx : Nat) (updates : List Update)
    (tc : String → Nat) :
    (runGeneration msgs pidx updates tc)[pidx]?
      = msgs[pidx]?.map (fun m =>
          let r := updates.foldl applyUpdate m
          SMsg.mk r.role r.content (some (tc r.content))) := by
  unfold runGeneration
  rw [getElem?_modifyIdx_self, foldl_modifyIdx_self]
  cases msgs[pidx]? with
  | none => rfl
  | some m => rfl

theorem submitEditPrepare_fst (msgs : List SMsg) (i : Nat) (text : String) :
    (submitEditPrepare msgs i text).1
      = (modifyIdx msgs i (fun m => SMsg.mk m.role text m.tokens)).take (i + 1) := rfl

theorem submitEditPrepare_snd (msgs : List SMsg) (i : Nat) (text : String) :
    (submitEditPrepare msgs i text).2
      = modifyIdx (modifyIdx msgs i (fun m => SMsg.mk m.role text m.tokens)) (i + 1)
          (fun m => SMsg.mk "" "" m.tokens) := rfl

/-- C2: once a generation's update stream ends (or consumption is interrupted
after some prefix), the in-flight message's content — starting from the empty
string — equals the exact concatenation, in delivery order, of every non-empty
content field of the updates applied, with no loss, duplication or
reordering. -/
theorem c2_content_is_delta_concat (us : List Update) (tk : Option Nat) :
    (us.foldl applyUpdate (SMsg.mk "" "" tk)).content = deltas us := by
  rw [applyUpdate_foldl_content]
  exact strNilAppend _

/-- C1 counterexample: editing index 0 of a four-message session and
submitting does not discard the messages at positions greater than 0 — the
session still holds 4 messages after generation completes (the claim predicts
0 + 2 = 2), and the message at position 2 survives unchanged. -/
theorem c1_counterexample :
    (editSubmitGenerate
        [⟨"user", "a", some 1⟩, ⟨"assistant", "b", some 1⟩,
         ⟨"user", "c", some 1⟩, ⟨"assistant", "d", some 1⟩] 0 "x"
        [⟨some "assistant", none, none⟩, ⟨none, some "ok", none⟩]
        String.length).length = 4 ∧
    (editSubmitGenerate
        [⟨"user", "a", some 1⟩, ⟨"assistant", "b", some 1⟩,
         ⟨"user", "c", some 1⟩, ⟨"assistant", "d", some 1⟩] 0 "x"
        [⟨some "assistant", none, none⟩, ⟨none, some "ok", none⟩]
        String.length)[2]? = some ⟨"user", "c", some 1⟩ ∧
    ¬ (editSubmitGenerate
        [⟨"user", "a", some 1⟩, ⟨"assistant", "b", some 1⟩,
         ⟨"user", "c", some 1⟩, ⟨"assistant", "d", some 1⟩] 0 "x"
        [⟨some "assistant", none, none⟩, ⟨none, some "ok", none⟩]
        String.length).length = 0 + 2 := by
  decide

/-- C1 (amended): editing the message at index `i` and submitting overwrites
message `i`'s content with the new text, passes only messages `0..i` to the
backend as history, and resets and regenerates the single paired reply at
`i + 1`; messages at positions other than `i` and `i + 1` are retained
unchanged, so after generation completes the session has its original message
count, not `i + 2` messages. -/
theorem c1_edit_replaces_single_reply (msgs : List SMsg) (i : Nat) (text : String)
    (updates : List Update) (tc : String → Nat) (h : i + 1 < msgs.length) :
    (editSubmitGenerate msgs i text updates tc).length = msgs.length ∧
    (∀ j, j ≠ i → j ≠ i + 1 →
      (editSubmitGenerate msgs i text updates tc)[j]? = msgs[j]?) ∧
    ((editSubmitGenerate msgs i text updates tc)[i]?).map SMsg.content = some text ∧
    ((editSubmitGenerate msgs i text updates tc)[i + 1]?).map SMsg.content
      = some (deltas updates) ∧
    (submitEditPrepare msgs i text).1.length = i + 1 := by
  have hi : i < msgs.length := Nat.lt_of_le_of_lt (Nat.le_succ i) h
  refine ⟨?_, ?_, ?_, ?_, ?_⟩
  · unfold editSubmitGenerate
    rw [runGeneration_length, submitEditPrepare_snd, length_modifyIdx, length_modifyIdx]
  · intro j hji hji1
    unfold editSubmitGenerate
    rw [runGeneration_ne _ _ _ _ _ (fun hh => hji1 hh.symm), submitEditPrepare_snd,
      getElem?_modifyIdx_ne _ _ _ _ (fun hh => hji1 hh.symm),
      getElem?_modifyIdx_ne _ _ _ _ (fun hh => hji hh.symm)]
  · unfold editSubmitGenerate
    rw [runGeneration_ne _ _ _ _ _ (Nat.succ_ne_self i), submitEditPrepare_snd,
      getElem?_modifyIdx_ne _ _ _ _ (Nat.succ_ne_self i), getElem?_modifyIdx_self]
    have hm : msgs[i]? = some msgs[i] := List.getElem?_eq_some_iff.mpr ⟨hi, rfl⟩
    rw [hm]
    rfl
  · unfold editSubmitGenerate
    rw [runGeneration_self, submitEditPrepare_snd, getElem?_modifyIdx_self,
      getElem?_modifyIdx_ne _ _ _ _ (Nat.ne_of_lt (Nat.lt_succ_self i))]
    have hm : msgs[i + 1]? = some msgs[i + 1] := List.getElem?_eq_some_iff.mpr ⟨h, rfl⟩
    rw [hm]
    show some ((updates.foldl applyUpdate (SMsg.mk "" "" (msgs[i + 1]).tokens)).content)
      = some (deltas updates)
    rw [applyUpdate_foldl_content, strNilAppend]
  · rw [submitEditPrepare_fst, List.length_take, length_modifyIdx]
    exact Nat.min_eq_left (Nat.le_of_lt h)

theorem c1_witness :
    (editSubmitGenerate [⟨"user", "a", some 1⟩, ⟨"assistant", "b", some 1⟩] 0 "q"
        [⟨some "assistant", some "hey", none⟩] String.length).length = 2 :=
  (c1_edit_replaces_single_reply
    [⟨"user", "a", some 1⟩, ⟨"assistant", "b", some 1⟩] 0 "q"
    [⟨some "assistant", some "hey", none⟩] String.length (by decide)).1

/-- C7: in the Idle state, deleting at an index `i` holding a user or system
message removes the message at `i` together with the immediately following
message when one exists, and only the message at `i` otherwise; all other
positions are unchanged (the result is exactly `take i ++ drop (i + 2)`). -/
theorem c7_delete_pairs (msgs : List SMsg) (i : Nat) (h : i < msgs.length)
    (_hrole : (msgs.getD i default).role = "user" ∨ (msgs.getD i default).role = "system") :
    delete_message msgs i = msgs.take i ++ msgs.drop (i + 2) :=
  delete_message_eq msgs i h

theorem c7_witness :
    delete_message
        [⟨"user", "a", some 1⟩, ⟨"assistant", "b", some 1⟩, ⟨"user", "c", some 1⟩] 0
      = [⟨"user", "c", some 1⟩] := by
  have hh := c7_delete_pairs
    [⟨"user", "a", some 1⟩, ⟨"assistant", "b", some 1⟩, ⟨"user", "c", some 1⟩] 0
    (by decide) (Or.inl rfl)
  exact hh.trans rfl

/-- One streamed chunk delta from the provider, as read by `OpenAIModel.query`
(`openai.py` lines 31-39): optional role and content entries in the delta map,
optional finish reason on the choice. -/
structure Chunk where
  role : Option String
  content : Option String
  finish_reason : Option String
deriving DecidableEq, Repr

/-- Updates yielded for one chunk (`openai.py` lines 33-39): presence of the
role key yields a role update, presence of the content key yields a content
update, a truthy finish reason yields a terminal update. -/
def chunkUpdates (c : Chunk) : List Update :=
  (match c.role with
   | some r => [Update.mk (some r) none none]
   | none => [])
  ++ (match c.content with
      | some s => [Update.mk none (some s) none]
      | none => [])
  ++ (if truthy c.finish_reason then [Update.mk none none c.finish_reason] else [])

/-- Outcome of the provider call made by `OpenAIModel.query`: a successful
chunk stream, a rejection raising `openai.InvalidRequestError`, or any other
failure (unreachable endpoint, provider-side error). -/
inductive ProviderOutcome where
  | chunks (cs : List Chunk)
  | invalidRequest (desc : String)
  | failure (desc : String)
deriving DecidableEq, Repr

/-- Stream produced by `OpenAIModel.query` (`openai.py` lines 25-41): the
`except` clause catches only `openai.InvalidRequestError`, converting it into
a single error-role update; every other exception escapes the generator,
modelled as `Except.error`. -/
def openaiQuery : ProviderOutcome → Except String (List Update)
  | ProviderOutcome.chunks cs => Except.ok (cs.foldr (fun c acc => chunkUpdates c ++ acc) [])
  | ProviderOutcome.invalidRequest d => Except.ok [Update.mk (some "error") (some d) none]
  | ProviderOutcome.failure d => Except.error d

/-- Role filter applied to the history by `OpenAIModel.query` (`openai.py`
line 21). -/
def allowedRole (r : String) : Bool :=
  r == "user" || r == "assistant" || r == "system"

/-- Request message list built by `OpenAIModel.query` (`openai.py` lines
18-24): keep only user/assistant/system history entries, then prepend the
config's system message when it is truthy (non-`None` and non-empty). -/
def buildRequest (system_message : Option String) (messages : List SMsg) :
    List (String × String) :=
  let msgs := (messages.filter (fun m => allowedRole m.role)).map
    (fun m => (m.role, m.content))
  match system_message with
  | some s => if s != "" then ("system", s) :: msgs else msgs
  | none => msgs

/-- C3 counterexample: a backend failure that is not an invalid-request
rejection — here an unreachable endpoint — escapes `OpenAIModel.query` as an
exception instead of being converted into a terminal error-role update, so the
backend does raise past its boundary. -/
theorem c3_counterexample :
    openaiQuery (ProviderOutcome.failure "unreachable endpoint")
      = Except.error "unreachable endpoint" := rfl

/-- C3 (amended): only an invalid-request rejection is converted by the
networked backend into exactly one terminal update carrying role `error` and
the failure description as content, after which the stream closes; any other
backend failure propagates past the boundary as an exception. -/
theorem c3_invalid_request_error_update (d : String) :
    (∃ u : Update, openaiQuery (ProviderOutcome.invalidRequest d) = Except.ok [u] ∧
      u.role = some "error" ∧ u.content = some d) ∧
    openaiQuery (ProviderOutcome.failure d) = Except.error d :=
  ⟨⟨Update.mk (some "error") (some d) none, rfl, rfl, rfl⟩, rfl⟩

theorem buildRequest_mem (sm : Option String) (msgs : List SMsg)
    (p : String × String) (hp : p ∈ buildRequest sm msgs) : allowedRole p.1 = true := by
  have hbase : ∀ q ∈ (msgs.filter (fun m => allowedRole m.role)).map
      (fun m => (m.role, m.content)), allowedRole q.1 = true := by
    intro q hq
    obtain ⟨m, hmf, rfl⟩ := List.mem_map.mp hq
    exact (List.mem_filter.mp hmf).2
  unfold buildRequest at hp
  cases sm with
  | none => exact hbase p hp
  | some s =>
    by_cases hs : s != ""
    · simp only [hs, if_true] at hp
      rcases List.mem_cons.mp hp with hp | hp
      · rw [hp]
        rfl
      · exact hbase p hp
    · simp only [hs, if_false] at hp
      exact hbase p hp

/-- C10: the request the networked backend sends keeps only history messages
whose role is `user`, `assistant` or `system` — any other role (such as
`error` or the empty pending role) never appears in it — and when the config
carries a (non-empty) system message it is prepended as a system-role entry at
position 0, followed by exactly the filtered history. -/
theorem c10_request_filtering (sm : Option String) (msgs : List SMsg) :
    (∀ p ∈ buildRequest sm msgs, allowedRole p.1 = true) ∧
    (∀ m ∈ msgs, allowedRole m.role = false →
      ∀ j : Nat, ¬ (buildRequest sm msgs)[j]? = some (m.role, m.content)) ∧
    (∀ s, sm = some s → s ≠ "" →
      (buildRequest sm msgs)[0]? = some ("system", s) ∧
      (buildRequest sm msgs).tail
        = (msgs.filter (fun m => allowedRole m.role)).map (fun m => (m.role, m.content))) := by
  refine ⟨buildRequest_mem sm msgs, ?_, ?_⟩
  · intro m hm hrole j hj
    have hmem : (m.role, m.content) ∈ buildRequest sm msgs := List.getElem?_mem hj
    have := buildRequest_mem sm msgs _ hmem
    rw [hrole] at this
    exact Bool.false_ne_true this
  · intro s hsm hs
    subst hsm
    have hb : (s != "") = true := bne_iff_ne.mpr hs
    unfold buildRequest
    simp only [hb, if_true]
    exact ⟨List.getElem?_cons_zero, rfl⟩

theorem c10_witness :
    (buildRequest (some "be nice")
      [SMsg.mk "error" "boom" none, SMsg.mk "user" "hi" (some 1)])[0]?
      = some ("system", "be nice") :=
  ((c10_request_filtering (some "be nice")
      [SMsg.mk "error" "boom" none, SMsg.mk "user" "hi" (some 1)]).2.2
    "be nice" rfl (by decide)).1

/-- Immutable model configuration (`config.py`, `ModelConfig`): title, backend
kind, optional system message, completion-mode flag. -/
structure ModelConfig where
  title : String
  module : String
  system_message : Option String
  completion : Bool
deriving DecidableEq, Repr

/-- Serialization of a config's field values (`model_dump_json`); equal field
values give equal dumps. -/
def model_dump (c : ModelConfig) : String :=
  c.title ++ "|" ++ c.module ++ "|" ++ c.system_message.getD "null" ++ "|"
    ++ (if c.completion then "true" else "false")

/-- The config's hash (`config.py` lines 17-18): a deterministic hash of the
serialized field values. -/
def configHash (c : ModelConfig) : Nat :=
  (model_dump c).data.foldl (fun h ch => (h * 31 + ch.toNat) % (2 ^ 61 - 1)) 7

/-- Key test used by the memoization cache of `create_model` (`main.py` lines
137-139, `functools.cache`): hash equality then structural equality. -/
def predC (c : ModelConfig) : ModelConfig × Nat → Bool :=
  fun e => configHash e.1 == configHash c && e.1 == c

/-- Process-lifetime state of the backend registry: cached (config, backend
instance) pairs — instances are identified by creation order — plus the next
fresh instance id. -/
structure CacheState where
  entries : List (ModelConfig × Nat)
  next : Nat
deriving DecidableEq, Repr

/-- The memoized `create_model` (`main.py` lines 137-139): return the cached
backend instance for an equal config, else build a fresh instance and cache
it. -/
def create_model (c : ModelConfig) (st : CacheState) : Nat × CacheState :=
  match st.entries.find? (predC c) with
  | some e => (e.2, st)
  | none => (st.next, CacheState.mk (st.entries ++ [(c, st.next)]) (st.next + 1))

/-- A sequence of backend requests over the process lifetime. -/
def runCalls (cs : List ModelConfig) (st : CacheState) : CacheState :=
  cs.foldl (fun s c => (create_model c s).2) st

theorem create_model_find (c : ModelConfig) (s : CacheState) :
    ∃ pr : ModelConfig × Nat,
      ((create_model c s).2).entries.find? (predC c) = some pr
        ∧ pr.2 = (create_model c s).1 := by
  unfold create_model
  cases h : s.entries.find? (predC c) with
  | some e => exact ⟨e, h, rfl⟩
  | none =>
    refine ⟨(c, s.next), ?_, rfl⟩
    show (s.entries ++ [(c, s.next)]).find? (predC c) = some (c, s.next)
    rw [List.find?_append, h]
    show List.find? (predC c) [(c, s.next)] = some (c, s.next)
    simp [List.find?, predC]

theorem create_model_result_of_find (c : ModelConfig) (s : CacheState)
    (e : ModelConfig × Nat) (h : s.entries.find? (predC c) = some e) :
    (create_model c s).1 = e.2 := by
  unfold create_model
  rw [h]

theorem find?_stable (c c' : ModelConfig) (s : CacheState) (e : ModelConfig × Nat)
    (hf : s.entries.find? (predC c) = some e) :
    ((create_model c' s).2).entries.find? (predC c) = some e := by
  unfold create_model
  cases hff : s.entries.find? (predC c') with
  | some e2 => exact hf
  | none =>
    show (s.entries ++ [(c', s.next)]).find? (predC c) = some e
    rw [List.find?_append, hf]
    rfl

theorem runCalls_find_stable (c : ModelConfig) (cs : List ModelConfig)
    (s : CacheState) (e : ModelConfig × Nat)
    (hf : s.entries.find? (predC c) = some e) :
    (runCalls cs s).entries.find? (predC c) = some e := by
  induction cs generalizing s with
  | nil => exact hf
  | cons c' rest ih =>
    exact ih _ (find?_stable c c' s e hf)

/-- C6: two model configs with identical field values resolve through the
memoized `create_model` to the same backend instance, and repeated requests
for that config — whatever other configs are requested in between over the
process lifetime — keep returning that singleton instance. -/
theorem c6_singleton_backend (c1 c2 : ModelConfig) (st : CacheState)
    (cs : List ModelConfig) (h : c1 = c2) :
    (create_model c1 st).1 = (create_model c2 st).1 ∧
    (create_model c2 (runCalls cs (create_model c1 st).2)).1
      = (create_model c1 st).1 := by
  subst h
  refine ⟨rfl, ?_⟩
  obtain ⟨pr, hf, hpr⟩ := create_model_find c1 st
  have hst := runCalls_find_stable c1 cs _ pr hf
  rw [create_model_result_of_find c1 _ pr hst, hpr]

theorem c6_witness :
    (create_model (ModelConfig.mk "GPT" "openai" none false)
        (runCalls [ModelConfig.mk "Local" "ctransformers" (some "sys") true]
          (create_model (ModelConfig.mk "GPT" "openai" none false)
            (CacheState.mk [] 0)).2)).1
      = (create_model (ModelConfig.mk "GPT" "openai" none false)
          (CacheState.mk [] 0)).1 :=
  (c6_singleton_backend (ModelConfig.mk "GPT" "openai" none false)
    (ModelConfig.mk "GPT" "openai" none false) (CacheState.mk [] 0)
    [ModelConfig.mk "Local" "ctransformers" (some "sys") true] rfl).2

/-- FIFO hand-off channel with the semantics of `asyncio.Queue`: a `maxsize`
of zero means infinite capacity; `put_nowait` raises `QueueFull` (modelled as
`Except.error`) only on a full bounded queue, otherwise appends. -/
structure AQueue (α : Type) where
  maxsize : Nat
  items : List α
deriving DecidableEq, Repr

def AQueue.put_nowait (q : AQueue α) (x : α) : Except Unit (AQueue α) :=
  if 0 < q.maxsize ∧ q.maxsize ≤ q.items.length then Except.error ()
  else Except.ok (AQueue.mk q.maxsize (q.items ++ [x]))

/-- The hand-off channel created by `CTransformers.query` (`ctransformers.py`
line 47): `asyncio.Queue()` with the default maxsize of 0, i.e. unbounded. -/
def ctransformersQueue : AQueue (Option String) := AQueue.mk 0 []

/-- A channel has bounded capacity exactly when its maxsize is positive. -/
def boundedCapacity (q : AQueue α) : Prop := 0 < q.maxsize

/-- C5 counterexample: the worker-to-controller hand-off channel of the
local-inference bridge is created with maxsize 0, so its capacity is not
bounded. -/
theorem c5_counterexample : ¬ boundedCapacity ctransformersQueue := by
  intro h
  exact Nat.lt_irrefl 0 h

/-- C5 (amended): the hand-off channel is unbounded (default `asyncio.Queue`)
and the worker enqueues with `put_nowait`, which on an unbounded queue always
succeeds immediately by appending in FIFO order — nothing is dropped or
reordered, but there is no bounded-capacity backpressure and the enqueue never
blocks. -/
theorem c5_unbounded_channel (q : AQueue (Option String)) (x : Option String)
    (h : q.maxsize = 0) :
    ctransformersQueue.maxsize = 0 ∧
    AQueue.put_nowait q x = Except.ok (AQueue.mk q.maxsize (q.items ++ [x])) := by
  refine ⟨rfl, ?_⟩
  unfold AQueue.put_nowait
  rw [if_neg]
  intro hc
  rw [h] at hc
  exact absurd hc.1 (by decide)

theorem c5_witness :
    AQueue.put_nowait ctransformersQueue (some "hi")
      = Except.ok (AQueue.mk 0 [some "hi"]) :=
  (c5_unbounded_channel ctransformersQueue (some "hi") rfl).2

/-- Left-to-right concatenation of a list of strings (`"".join(items)`). -/
def concatStr (l : List String) : String := l.foldl (fun a b => a ++ b) ""

theorem concatStr_aux (l : List String) (acc : String) :
    l.foldl (fun a b => a ++ b) acc = acc ++ concatStr l := by
  induction l generalizing acc with
  | nil => simp [concatStr, strAppendNil]
  | cons b t ih =>
    simp only [List.foldl_cons]
    rw [ih]
    conv_rhs => rw [concatStr, List.foldl_cons, ih]
    rw [strNilAppend, strAppendAssoc]

theorem concatStr_append (l1 l2 : List String) :
    concatStr (l1 ++ l2) = concatStr l1 ++ concatStr l2 := by
  rw [concatStr, List.foldl_append]
  rw [show List.foldl (fun a b => a ++ b) "" l1 = concatStr l1 from rfl, concatStr_aux]

theorem concatStr_singleton (a : String) : concatStr [a] = a := by
  rw [concatStr, List.foldl_cons, List.foldl_nil, strNilAppend]

/-- One coalesced flush pushed into the hand-off channel: the wall-clock
reading that satisfied the interval test, and the accumulated unflushed
fragments whose join is the flushed content. -/
structure FlushEv where
  time : ℚ
  frags : List String
deriving DecidableEq, Repr

/-- Final state of the worker loop: coalesced in-loop flushes, fragments still
buffered at loop exit, number of tokens processed, and tokens never reached. -/
structure GenResult where
  flushes : List FlushEv
  buffered : List String
  processed : Nat
  remaining : List String
deriving DecidableEq, Repr

/-- Worker token loop of `CTransformers.query.generate` (`ctransformers.py`
lines 53-65).  `toks` are the detokenized contents of the generated tokens,
`check i` the wall-clock reading in iteration `i`'s flush test (`time.time()`
in line 59), `stamp i` the second reading stored into `last_update` when
iteration `i` flushes (line 62, never before `check i`), and `stop i` whether
the stop flag is observed set at the end of iteration `i` (line 64). -/
def genLoopAux (check stamp : Nat → ℚ) (stop : Nat → Bool) :
    List String → Nat → ℚ → List String → List FlushEv → GenResult
  | [], i, _, items, flushes => GenResult.mk flushes items i []
  | tok :: rest, i, last, items, flushes =>
    let items1 := items ++ [tok]
    let doFlush := last + 3/10 < check i
    let flushes1 := if doFlush then flushes ++ [FlushEv.mk (check i) items1] else flushes
    let items2 := if doFlush then [] else items1
    let last1 := if doFlush then stamp i else last
    if stop i then GenResult.mk flushes1 items2 (i + 1) rest
    else genLoopAux check stamp stop rest (i + 1) last1 items2 flushes1

/-- Whole worker loop as entered by the bridge: index 0, `last_update = 0`,
empty fragment buffer (lines 53-55). -/
def generate (toks : List String) (check stamp : Nat → ℚ) (stop : Nat → Bool) :
    GenResult :=
  genLoopAux check stamp stop toks 0 0 [] []

/-- Queue traffic produced by the worker for one generation: the coalesced
in-loop flushes, the unconditional final flush of a non-empty buffer at loop
exit (lines 67-68), then the single end-of-stream `None` marker (line 70). -/
def genOutputs (toks : List String) (check stamp : Nat → ℚ) (stop : Nat → Bool) :
    List (Option String) :=
  let r := generate toks check stamp stop
  r.flushes.map (fun f => some (concatStr f.frags))
    ++ (if r.buffered.isEmpty then [] else [some (concatStr r.buffered)])
    ++ [none]

theorem genLoopAux_processed (check stamp : Nat → ℚ) (stop : Nat → Bool) (k : Nat)
    (hk : stop k = true) :
    ∀ (toks : List String) (i : Nat) (last : ℚ) (items : List String)
      (flushes : List FlushEv), (∀ j, j < i → stop j = false) →
      (genLoopAux check stamp stop toks i last items flushes).processed ≤ k + 1 := by
  intro toks
  induction toks with
  | nil =>
    intro i last items flushes hlow
    have hik : i ≤ k := by
      by_contra hcon
      have := hlow k (Nat.lt_of_not_le hcon)
      rw [hk] at this
      exact absurd this (by decide)
    exact Nat.le_succ_of_le hik
  | cons tok rest ih =>
    intro i last items flushes hlow
    have hik : i ≤ k := by
      by_contra hcon
      have := hlow k (Nat.lt_of_not_le hcon)
      rw [hk] at this
      exact absurd this (by decide)
    by_cases hsi : stop i = true
    · simp only [genLoopAux, hsi, if_true]
      exact Nat.succ_le_succ hik
    · simp only [genLoopAux, hsi, if_false]
      refine ih (i + 1) _ _ _ ?_
      intro j hj
      rcases Nat.lt_succ_iff_lt_or_eq.mp hj with hj | hj
      · exact hlow j hj
      · rw [hj]
        exact Bool.not_eq_true _ |>.mp hsi

/-- Flushed-plus-buffered content of a loop state. -/
def cumContent (flushes : List FlushEv) (items : List String) : String :=
  concatStr (flushes.map (fun f => concatStr f.frags)) ++ concatStr items

theorem cumContent_step (flushes : List FlushEv) (items : List String)
    (tok : String) (t : ℚ) (doFlush : Prop) [Decidable doFlush] :
    cumContent (if doFlush then flushes ++ [FlushEv.mk t (items ++ [tok])] else flushes)
        (if doFlush then [] else items ++ [tok])
      = cumContent flushes items ++ tok := by
  by_cases h : doFlush
  · simp only [h, if_true]
    rw [cumContent, cumContent, List.map_append, concatStr_append]
    rw [List.map_cons, List.map_nil, concatStr_singleton, concatStr_append,
      concatStr_singleton]
    show _ ++ "" = _
    rw [strAppendNil, strAppendAssoc]
  · simp only [h, if_false]
    rw [cumContent, cumContent, concatStr_append, concatStr_singleton, strAppendAssoc]

theorem genLoopAux_content (check stamp : Nat → ℚ) (stop : Nat → Bool) :
    ∀ (toks : List String) (i : Nat) (last : ℚ) (items : List String)
      (flushes : List FlushEv),
      ∃ consumed : List String,
        toks = consumed ++ (genLoopAux check stamp stop toks i last items flushes).remaining ∧
        cumContent (genLoopAux check stamp stop toks i last items flushes).flushes
            (genLoopAux check stamp stop toks i last items flushes).buffered
          = cumContent flushes items ++ concatStr consumed := by
  intro toks
  induction toks with
  | nil =>
    intro i last items flushes
    refine ⟨[], rfl, ?_⟩
    show cumContent flushes items = cumContent flushes items ++ concatStr []
    rw [show concatStr [] = "" from rfl, strAppendNil]
  | cons tok rest ih =>
    intro i last items flushes
    by_cases hsi : stop i = true
    · refine ⟨[tok], ?_, ?_⟩
      · simp only [genLoopAux, hsi, if_true]
        rfl
      · simp only [genLoopAux, hsi, if_true]
        rw [cumContent_step, concatStr_singleton]
    · obtain ⟨consumed, hrem, hcontent⟩ := ih (i + 1)
        (if last + 3/10 < check i then stamp i else last)
        (if last + 3/10 < check i then [] else items ++ [tok])
        (if last + 3/10 < check i then flushes ++ [FlushEv.mk (check i) (items ++ [tok])]
         else flushes)
      refine ⟨tok :: consumed, ?_, ?_⟩
      · simp only [genLoopAux, hsi, Bool.false_eq_true, if_false]
        rw [List.cons_append]
        exact congrArg (tok :: ·) hrem
      · simp only [genLoopAux, hsi, Bool.false_eq_true, if_false]
        rw [hcontent, cumContent_step]
        rw [show concatStr (tok :: consumed) = concatStr [tok] ++ concatStr consumed from
          concatStr_append [tok] consumed]
        rw [concatStr_singleton, strAppendAssoc]

theorem genLoopAux_pairwise (check stamp : Nat → ℚ) (stop : Nat → Bool)
    (hcs : ∀ i, check i ≤ stamp i) :
    ∀ (toks : List String) (i : Nat) (last : ℚ) (items : List String)
      (flushes : List FlushEv),
      flushes.Pairwise (fun a b => a.time + 3/10 < b.time) →
      (∀ f ∈ flushes, f.time ≤ last) →
      (genLoopAux check stamp stop toks i last items flushes).flushes.Pairwise
        (fun a b => a.time + 3/10 < b.time) := by
  intro toks
  induction toks with
  | nil =>
    intro i last items flushes h1 h2
    exact h1
  | cons tok rest ih =>
    intro i last items flushes h1 h2
    by_cases hfl : last + 3/10 < check i
    · have h1b : (flushes ++ [FlushEv.mk (check i) (items ++ [tok])]).Pairwise
          (fun a b => a.time + 3/10 < b.time) := by
        rw [List.pairwise_append]
        refine ⟨h1, List.pairwise_singleton _ _, ?_⟩
        intro a ha b hb
        rw [List.mem_singleton] at hb
        subst hb
        show a.time + 3/10 < check i
        have := h2 a ha
        linarith
      have h2b : ∀ f ∈ flushes ++ [FlushEv.mk (check i) (items ++ [tok])],
          f.time ≤ stamp i := by
        intro f hf
        rcases List.mem_append.mp hf with hf | hf
        · have ha := h2 f hf
          have hb := hcs i
          linarith
        · rw [List.mem_singleton] at hf
          subst hf
          exact hcs i
      by_cases hsi : stop i = true
      · simp only [genLoopAux, hsi, if_true, if_pos hfl]
        exact h1b
      · simp only [genLoopAux, hsi, Bool.false_eq_true, if_false, if_pos hfl]
        exact ih (i + 1) (stamp i) _ _ h1b h2b
    · by_cases hsi : stop i = true
      · simp only [genLoopAux, hsi, if_true, if_neg hfl]
        exact h1
      · simp only [genLoopAux, hsi, Bool.false_eq_true, if_false, if_neg hfl]
        exact ih (i + 1) last _ _ h1 h2

theorem genLoopAux_frags (check stamp : Nat → ℚ) (stop : Nat → Bool) :
    ∀ (toks : List String) (i : Nat) (last : ℚ) (items : List String)
      (flushes : List FlushEv),
      (∀ f ∈ flushes, f.frags ≠ []) →
      ∀ f ∈ (genLoopAux check stamp stop toks i last items flushes).flushes,
        f.frags ≠ [] := by
  intro toks
  induction toks with
  | nil =>
    intro i last items flushes h1
    exact h1
  | cons tok rest ih =>
    intro i last items flushes h1
    have h1b : ∀ f ∈ flushes ++ [FlushEv.mk (check i) (items ++ [tok])],
        f.frags ≠ [] := by
      intro f hf
      rcases List.mem_append.mp hf with hf | hf
      · exact h1 f hf
      · rw [List.mem_singleton] at hf
        subst hf
        simp
    by_cases hfl : last + 3/10 < check i
    · by_cases hsi : stop i = true
      · simp only [genLoopAux, hsi, if_true, if_pos hfl]
        exact h1b
      · simp only [genLoopAux, hsi, Bool.false_eq_true, if_false, if_pos hfl]
        exact ih (i + 1) (stamp i) _ _ h1b
    · by_cases hsi : stop i = true
      · simp only [genLoopAux, hsi, if_true, if_neg hfl]
        exact h1
      · simp only [genLoopAux, hsi, Bool.false_eq_true, if_false, if_neg hfl]
        exact ih (i + 1) last _ _ h1

theorem filterMap_some_comp (g : FlushEv → String) (l : List FlushEv) :
    List.filterMap (fun f => some (g f)) l = l.map g := by
  induction l with
  | nil => rfl
  | cons a t ih => simp [List.filterMap_cons, ih]

theorem genOutputs_filterMap (toks : List String) (check stamp : Nat → ℚ)
    (stop : Nat → Bool) :
    (genOutputs toks check stamp stop).filterMap id
      = (generate toks check stamp stop).flushes.map (fun f => concatStr f.frags)
        ++ (if (generate toks check stamp stop).buffered.isEmpty then []
            else [concatStr (generate toks check stamp stop).buffered]) := by
  unfold genOutputs
  by_cases hb : (generate toks check stamp stop).buffered.isEmpty <;>
    simp [hb, List.filterMap_append, List.filterMap_map, filterMap_some_comp]

/-- C4: once the stop flag is observed set at iteration `k`, the cancelled
worker processes at most one further token (`processed ≤ k + 1`), flushes any
buffered partial content, and enqueues exactly one terminal end-of-stream
marker, which always comes after the last content flush — the queue traffic is
some content items followed by the single `None`, and the joined flushed
content equals exactly the consumed tokens' content. -/
theorem c4_cancellation (toks : List String) (check stamp : Nat → ℚ)
    (stop : Nat → Bool) (k : Nat) (hk : stop k = true) :
    (generate toks check stamp stop).processed ≤ k + 1 ∧
    (∃ cs : List String, genOutputs toks check stamp stop = cs.map some ++ [none]) ∧
    (∃ consumed : List String,
      toks = consumed ++ (generate toks check stamp stop).remaining ∧
      concatStr ((genOutputs toks check stamp stop).filterMap id)
        = concatStr consumed) := by
  refine ⟨?_, ?_, ?_⟩
  · exact genLoopAux_processed check stamp stop k hk toks 0 0 [] []
      (fun j hj => absurd hj (Nat.not_lt_zero j))
  · refine ⟨(generate toks check stamp stop).flushes.map (fun f => concatStr f.frags)
      ++ (if (generate toks check stamp stop).buffered.isEmpty then []
          else [concatStr (generate toks check stamp stop).buffered]), ?_⟩
    unfold genOutputs
    by_cases hb : (generate toks check stamp stop).buffered.isEmpty <;>
      simp [hb, List.map_append, List.map_map]
  · obtain ⟨consumed, hrem, hcontent⟩ :=
      genLoopAux_content check stamp stop toks 0 0 [] []
    refine ⟨consumed, hrem, ?_⟩
    rw [genOutputs_filterMap]
    have hcum : cumContent (generate toks check stamp stop).flushes
        (generate toks check stamp stop).buffered = concatStr consumed := by
      rw [show generate toks check stamp stop
          = genLoopAux check stamp stop toks 0 0 [] [] from rfl, hcontent]
      rw [show cumContent [] [] = "" from rfl, strNilAppend]
    rw [← hcum, cumContent, concatStr_append]
    by_cases hb : (generate toks check stamp stop).buffered.isEmpty
    · have hbe : (generate toks check stamp stop).buffered = [] :=
        List.isEmpty_iff.mp hb
      rw [hbe]
      simp
    · rw [if_neg hb, concatStr_singleton]

theorem c4_witness :
    (generate ["a", "b", "c"] (fun _ => 1) (fun _ => 1)
      (fun i => decide (1 ≤ i))).processed ≤ 1 + 1 :=
  (c4_cancellation ["a", "b", "c"] (fun _ => 1) (fun _ => 1)
    (fun i => decide (1 ≤ i)) 1 (by decide)).1

/-- C9: for a local-inference generation, in-loop content flushes are strictly
more than the 300 ms coalescing interval apart pairwise (given only that the
second wall-clock reading of an iteration is not earlier than the first),
every in-loop flush carries a non-empty accumulated fragment list, and the
unconditional final flush at loop exit makes the flushed-plus-buffered content
equal exactly the consumed tokens' content, so no trailing content is lost. -/
theorem c9_coalescing (toks : List String) (check stamp : Nat → ℚ)
    (stop : Nat → Bool) (hcs : ∀ i, check i ≤ stamp i) :
    ((generate toks check stamp stop).flushes).Pairwise
      (fun a b => a.time + 3/10 < b.time) ∧
    (∀ f ∈ (generate toks check stamp stop).flushes, f.frags ≠ []) ∧
    (∃ consumed : List String,
      toks = consumed ++ (generate toks check stamp stop).remaining ∧
      cumContent (generate toks check stamp stop).flushes
          (generate toks check stamp stop).buffered
        = concatStr consumed) := by
  refine ⟨?_, ?_, ?_⟩
  · exact genLoopAux_pairwise check stamp stop hcs toks 0 0 [] []
      List.Pairwise.nil (fun f hf => absurd hf (List.not_mem_nil f))
  · exact genLoopAux_frags check stamp stop toks 0 0 [] []
      (fun f hf => absurd hf (List.not_mem_nil f))
  · obtain ⟨consumed, hrem, hcontent⟩ :=
      genLoopAux_content check stamp stop toks 0 0 [] []
    refine ⟨consumed, hrem, ?_⟩
    rw [show generate toks check stamp stop
        = genLoopAux check stamp stop toks 0 0 [] [] from rfl, hcontent]
    rw [show cumContent [] [] = "" from rfl, strNilAppend]

theorem c9_witness :
    ((generate ["x"] (fun i => (i + 1 : ℚ)) (fun i => (i + 1 : ℚ))
      (fun _ => false)).flushes).Pairwise (fun a b => a.time + 3/10 < b.time) :=
  (c9_coalescing ["x"] (fun i => (i + 1 : ℚ)) (fun i => (i + 1 : ℚ))
    (fun _ => false) (fun _ => le_refl _)).1

/-- State of one session as owned by `SessionWidget` (`main.py`): the ordered
message list, whether a generation is in flight (input disabled, task
running), the edit-mode index (`self.editing`), the index of the in-flight
pending message targeted by the running generation, and the interrupt flag
(`self.interrupted`). -/
structure SessState where
  messages : List SMsg
  generating : Bool
  editing : Option Nat
  pendingIdx : Nat
  interrupted : Bool
deriving DecidableEq, Repr

/-- A fresh session: no messages, Idle, no edit mode. -/
def initState : SessState := SessState.mk [] false none 0 false

/-- Transitions of the conversation state machine, translated from
`SessionWidget.send`, `generation_task`, `action_interrupt` and
`on_action_message` (`main.py` lines 190-280):

* `submitNew`: non-edit submit of non-empty text — append the user message
  with its token count, then append the pending placeholder, start generating
  (lines 199-233);
* `submitEdit`: submit while editing index `i` — overwrite message `i`'s
  content, reset the reply at `i + 1` to pending in place (its stale token
  count is untouched), start generating (lines 206-233; indexing `i + 1`
  requires the reply to exist);
* `applyUpd`: apply one streamed update to the pending message (236-240);
* `complete`: stream end — store the pending message's token count, re-enable
  input, leave edit mode (246-256);
* `editMode`: enter edit mode on a user/system message (123-134, 267-271);
* `deleteMsg`: delete a user/system message and its paired reply (272-280);
* `interruptFlag`: set the interrupt flag (261-262). -/
inductive Step : SessState → SessState → Prop where
  | submitNew (s : SessState) (text : String) (tk : Nat)
      (hg : s.generating = false) (he : s.editing = none) (ht : text ≠ "") :
      Step s (SessState.mk
        (s.messages ++ [SMsg.mk "user" text (some tk), SMsg.mk "" "" none])
        true none (s.messages.length + 1) false)
  | submitEdit (s : SessState) (text : String) (i : Nat)
      (hg : s.generating = false) (he : s.editing = some i)
      (hi : i + 1 < s.messages.length) (ht : text ≠ "") :
      Step s (SessState.mk
        (modifyIdx (modifyIdx s.messages i (fun m => SMsg.mk m.role text m.tokens))
          (i + 1) (fun m => SMsg.mk "" "" m.tokens))
        true (some i) (i + 1) false)
  | applyUpd (s : SessState) (u : Update) (hg : s.generating = true) :
      Step s (SessState.mk
        (modifyIdx s.messages s.pendingIdx (fun m => applyUpdate m u))
        true s.editing s.pendingIdx s.interrupted)
  | complete (s : SessState) (tk : Nat) (hg : s.generating = true) :
      Step s (SessState.mk
        (modifyIdx s.messages s.pendingIdx
          (fun m => SMsg.mk m.role m.content (some tk)))
        false none s.pendingIdx s.interrupted)
  | editMode (s : SessState) (i : Nat) (hg : s.generating = false)
      (hi : i < s.messages.length)
      (hr : (s.messages.getD i default).role = "user"
        ∨ (s.messages.getD i default).role = "system") :
      Step s (SessState.mk s.messages false (some i) s.pendingIdx s.interrupted)
  | deleteMsg (s : SessState) (i : Nat) (hg : s.generating = false)
      (hi : i < s.messages.length)
      (hr : (s.messages.getD i default).role = "user"
        ∨ (s.messages.getD i default).role = "system") :
      Step s (SessState.mk (delete_message s.messages i)
        false s.editing s.pendingIdx s.interrupted)
  | interruptFlag (s : SessState) :
      Step s (SessState.mk s.messages s.generating s.editing s.pendingIdx true)

/-- Same transitions with the completion guard: the stream of a completing
generation has applied at least one update bearing a role or non-empty
content, so the in-flight message is no longer pending when the stream
ends. -/
inductive StepG : SessState → SessState → Prop where
  | submitNew (s : SessState) (text : String) (tk : Nat)
      (hg : s.generating = false) (he : s.editing = none) (ht : text ≠ "") :
      StepG s (SessState.mk
        (s.messages ++ [SMsg.mk "user" text (some tk), SMsg.mk "" "" none])
        true none (s.messages.length + 1) false)
  | submitEdit (s : SessState) (text : String) (i : Nat)
      (hg : s.generating = false) (he : s.editing = some i)
      (hi : i + 1 < s.messages.length) (ht : text ≠ "") :
      StepG s (SessState.mk
        (modifyIdx (modifyIdx s.messages i (fun m => SMsg.mk m.role text m.tokens))
          (i + 1) (fun m => SMsg.mk "" "" m.tokens))
        true (some i) (i + 1) false)
  | applyUpd (s : SessState) (u : Update) (hg : s.generating = true) :
      StepG s (SessState.mk
        (modifyIdx s.messages s.pendingIdx (fun m => applyUpdate m u))
        true s.editing s.pendingIdx s.interrupted)
  | complete (s : SessState) (tk : Nat) (hg : s.generating = true)
      (hnp : ∀ m : SMsg, s.messages[s.pendingIdx]? = some m → isPending m = false) :
      StepG s (SessState.mk
        (modifyIdx s.messages s.pendingIdx
          (fun m => SMsg.mk m.role m.content (some tk)))
        false none s.pendingIdx s.interrupted)
  | editMode (s : SessState) (i : Nat) (hg : s.generating = false)
      (hi : i < s.messages.length)
      (hr : (s.messages.getD i default).role = "user"
        ∨ (s.messages.getD i default).role = "system") :
      StepG s (SessState.mk s.messages false (some i) s.pendingIdx s.interrupted)
  | deleteMsg (s : SessState) (i : Nat) (hg : s.generating = false)
      (hi : i < s.messages.length)
      (hr : (s.messages.getD i default).role = "user"
        ∨ (s.messages.getD i default).role = "system") :
      StepG s (SessState.mk (delete_message s.messages i)
        false s.editing s.pendingIdx s.interrupted)
  | interruptFlag (s : SessState) :
      StepG s (SessState.mk s.messages s.generating s.editing s.pendingIdx true)

/-- At most one message of the list is a pending placeholder. -/
def atMostOnePending (l : List SMsg) : Prop :=
  ∀ (i j : Nat) (mi mj : SMsg), l[i]? = some mi → l[j]? = some mj →
    isPending mi = true → isPending mj = true → i = j

/-- Inductive invariant: a pending message exists only while generating, and
only at the generation's pending index. -/
def Inv (s : SessState) : Prop :=
  ∀ (j : Nat) (m : SMsg), s.messages[j]? = some m → isPending m = true →
    s.generating = true ∧ j = s.pendingIdx

theorem Inv_init : Inv initState := by
  intro j m hget hpend
  simp [initState] at hget

theorem Inv_atMostOne (s : SessState) (h : Inv s) : atMostOnePending s.messages := by
  intro i j mi mj hi hj hpi hpj
  have h1 := h i mi hi hpi
  have h2 := h j mj hj hpj
  rw [h1.2, h2.2]

theorem stepG_preserves_Inv (s t : SessState) (hInv : Inv s) (hst : StepG s t) :
    Inv t := by
  cases hst with
  | submitNew text tk hg he ht =>
    intro j m hget hpend
    dsimp only at hget ⊢
    rcases Nat.lt_or_ge j s.messages.length with hj | hj
    · rw [List.getElem?_append_left hj] at hget
      have := hInv j m hget hpend
      rw [hg] at this
      exact absurd this.1 (by decide)
    · rw [List.getElem?_append_right hj] at hget
      cases hdj : j - s.messages.length with
      | zero =>
        rw [hdj, List.getElem?_cons_zero] at hget
        injection hget with hm
        rw [← hm] at hpend
        simp [isPending] at hpend
      | succ d =>
        cases d with
        | zero =>
          refine ⟨rfl, ?_⟩
          show j = s.messages.length + 1
          omega
        | succ d2 =>
          rw [hdj] at hget
          simp at hget
  | submitEdit text i hg he hi ht =>
    intro j m hget hpend
    dsimp only at hget ⊢
    by_cases hj1 : j = i + 1
    · subst hj1
      exact ⟨rfl, rfl⟩
    · rw [getElem?_modifyIdx_ne _ _ _ _ (fun hh => hj1 hh.symm)] at hget
      by_cases hj0 : j = i
      · subst hj0
        rw [getElem?_modifyIdx_self] at hget
        cases horig : s.messages[j]? with
        | none =>
          rw [horig] at hget
          simp at hget
        | some o =>
          rw [horig] at hget
          injection hget with hm
          rw [← hm] at hpend
          simp [isPending] at hpend
          exact absurd hpend.2 ht
      · rw [getElem?_modifyIdx_ne _ _ _ _ (fun hh => hj0 hh.symm)] at hget
        have := hInv j m hget hpend
        rw [hg] at this
        exact absurd this.1 (by decide)
  | applyUpd u hg =>
    intro j m hget hpend
    dsimp only at hget ⊢
    by_cases hj : j = s.pendingIdx
    · exact ⟨rfl, hj⟩
    · rw [getElem?_modifyIdx_ne _ _ _ _ (fun hh => hj hh.symm)] at hget
      have := hInv j m hget hpend
      exact ⟨rfl, this.2⟩
  | complete tk hg hnp =>
    intro j m hget hpend
    dsimp only at hget ⊢
    by_cases hj : j = s.pendingIdx
    · rw [hj, getElem?_modifyIdx_self] at hget
      cases horig : s.messages[s.pendingIdx]? with
      | none =>
        rw [horig] at hget
        simp at hget
      | some o =>
        rw [horig] at hget
        injection hget with hm
        have hpo : isPending o = true := by
          rw [← hm] at hpend
          exact hpend
        have hno := hnp o horig
        rw [hpo] at hno
        exact absurd hno (by decide)
    · rw [getElem?_modifyIdx_ne _ _ _ _ (fun hh => hj hh.symm)] at hget
      exact absurd (hInv j m hget hpend).2 hj
  | editMode i hg hi hr =>
    intro j m hget hpend
    dsimp only at hget ⊢
    have := hInv j m hget hpend
    rw [hg] at this
    exact absurd this.1 (by decide)
  | deleteMsg i hg hi hr =>
    intro j m hget hpend
    dsimp only at hget ⊢
    have hmem : m ∈ delete_message s.messages i := List.getElem?_mem hget
    rw [delete_message_eq s.messages i hi] at hmem
    have hmem2 : m ∈ s.messages := by
      rcases List.mem_append.mp hmem with hm | hm
      · exact (List.take_sublist i s.messages).mem hm
      · exact (List.drop_sublist (i + 2) s.messages).mem hm
    obtain ⟨j0, hj0⟩ := List.getElem?_of_mem hmem2
    have := hInv j0 m hj0 hpend
    rw [hg] at this
    exact absurd this.1 (by decide)
  | interruptFlag =>
    intro j m hget hpend
    exact hInv j m hget hpend

/-- C8 counterexample: the pending invariant can be violated on the code's
own transitions — a generation whose stream ends with no role- or
content-bearing update applied completes with its placeholder still pending,
and the next submit appends a second pending placeholder, giving a reachable
state with two pending messages. -/
theorem c8_counterexample :
    Relation.ReflTransGen Step initState
      (SessState.mk
        [SMsg.mk "user" "hi" (some 1), SMsg.mk "" "" (some 0),
         SMsg.mk "user" "yo" (some 1), SMsg.mk "" "" none]
        true none 3 false) ∧
    ¬ atMostOnePending
        [SMsg.mk "user" "hi" (some 1), SMsg.mk "" "" (some 0),
         SMsg.mk "user" "yo" (some 1), SMsg.mk "" "" none] := by
  constructor
  · have h1 : Step initState
        (SessState.mk [SMsg.mk "user" "hi" (some 1), SMsg.mk "" "" none]
          true none 1 false) :=
      Step.submitNew initState "hi" 1 rfl rfl (by decide)
    have h2 : Step
        (SessState.mk [SMsg.mk "user" "hi" (some 1), SMsg.mk "" "" none]
          true none 1 false)
        (SessState.mk [SMsg.mk "user" "hi" (some 1), SMsg.mk "" "" (some 0)]
          false none 1 false) :=
      Step.complete
        (SessState.mk [SMsg.mk "user" "hi" (some 1), SMsg.mk "" "" none]
          true none 1 false) 0 rfl
    have h3 : Step
        (SessState.mk [SMsg.mk "user" "hi" (some 1), SMsg.mk "" "" (some 0)]
          false none 1 false)
        (SessState.mk
          [SMsg.mk "user" "hi" (some 1), SMsg.mk "" "" (some 0),
           SMsg.mk "user" "yo" (some 1), SMsg.mk "" "" none]
          true none 3 false) :=
      Step.submitNew
        (SessState.mk [SMsg.mk "user" "hi" (some 1), SMsg.mk "" "" (some 0)]
          false none 1 false) "yo" 1 rfl rfl (by decide)
    exact Relation.ReflTransGen.tail
      (Relation.ReflTransGen.tail (Relation.ReflTransGen.single h1) h2) h3
  · intro hall
    have := hall 1 3 (SMsg.mk "" "" (some 0)) (SMsg.mk "" "" none) rfl rfl rfl rfl
    exact absurd this (by decide)

/-- C8 (amended): at every state reachable under
submit/apply/complete/edit/delete/interrupt, at most one message is pending,
provided each completing generation has applied at least one update bearing a
role or non-empty content (so the in-flight message is non-pending at stream
end) — the guard both concrete backends satisfy on their usual paths but that
the state machine itself does not enforce. -/
theorem c8_at_most_one_pending (s : SessState)
    (h : Relation.ReflTransGen StepG initState s) : atMostOnePending s.messages := by
  have hinv : Inv s := by
    induction h with
    | refl => exact Inv_init
    | tail h1 h2 ih => exact stepG_preserves_Inv _ _ ih h2
  exact Inv_atMostOne s hinv

theorem c8_witness : atMostOnePending initState.messages :=
  c8_at_most_one_pending initState Relation.ReflTransGen.refl

end Chatty
